import Mathlib

/-! # progman_server (`shell.c`): connection-handling pipeline

A shallow embedding of the request pipeline of `shell.c`: the loopback check
`is_local_addr`, the header reader `read_http_header`, the body reader `read_n`,
the percent-decoder `url_decode`, and the body of the accept loop of `main`.

Conventions of the embedding.

* A byte is a natural number below 256; a byte string is a `List Nat`.
* A C string stored in a buffer is the part of the buffer before its first zero
  byte (`cstr`).  The end of a list plays the role of the terminating zero that the
  code writes behind the data (`buf[off] = 0`, `postbuf[content_len] = 0`).
* A connection is the finite list of bytes the peer sends before closing; `recv`
  on an exhausted connection returns `0`.
* Heap allocations are taken to succeed.
* Code that can write past a buffer returns an `Option`; `none` stands for the
  undefined behaviour of such a write.
-/

namespace Shell

/-- A string of bytes. -/
abbrev Bytes := List Nat

/-- The bytes of an ASCII string literal of the source. -/
def ascii (s : String) : Bytes := s.toList.map Char.toNat

/-- The C string held by a buffer: its bytes up to the first zero byte. -/
def cstr : Bytes → Bytes
  | [] => []
  | c :: rest => if c = 0 then [] else c :: cstr rest

/-! ## `is_local_addr` -/

/-- Address family of IPv4 sockets. -/
def AF_INET : Nat := 2

/-- Address family of IPv6 sockets. -/
def AF_INET6 : Nat := 10

/-- The fields of a `struct sockaddr_storage` that `is_local_addr` looks at: the
family, the four bytes of `sin_addr` (in memory order, that is network order) and
the sixteen bytes of `sin6_addr`. -/
structure sockaddr_storage where
  ss_family : Nat
  sin_addr : Fin 4 → Fin 256
  sin6_addr : Fin 16 → Fin 256

/-- The value `ntohl(a->sin_addr.s_addr)`: the four address bytes read as a
big-endian 32-bit number. -/
def ntohl_s_addr (a : Fin 4 → Fin 256) : Nat :=
  (a 0).val * 2 ^ 24 + (a 1).val * 2 ^ 16 + (a 2).val * 2 ^ 8 + (a 3).val

/-- The loop `for (int i=0;i<15;i++) if (b[i]!=0) return 0; return (b[15] == 1);`
with `n` iterations still to run (so `i = 15 - n`). -/
def is_local_addr_v6 (b : Fin 16 → Fin 256) : Nat → Int
  | 0 => if b 15 = 1 then 1 else 0
  | n + 1 => if b (Fin.ofNat (15 - (n + 1))) ≠ 0 then 0 else is_local_addr_v6 b n

/-- The function `is_local_addr`; `none` is the null pointer. -/
def is_local_addr (addr : Option sockaddr_storage) : Int :=
  match addr with
  | none => 0
  | some a =>
    if a.ss_family = AF_INET then
      let ip := ntohl_s_addr a.sin_addr
      if ip >>> 24 = 127 then 1 else 0
    else if a.ss_family = AF_INET6 then
      is_local_addr_v6 a.sin6_addr 15
    else 0

/-- The IPv6 loopback address `::1`. -/
def in6addr_loopback : Fin 16 → Fin 256 := fun i => if i = 15 then 1 else 0

/-! ## `url_decode` -/

/-- The C library's `isxdigit` in the C locale. -/
def isxdigit (c : Nat) : Bool :=
  (48 ≤ c && c ≤ 57) || (65 ≤ c && c ≤ 70) || (97 ≤ c && c ≤ 102)

/-- The value of one hexadecimal digit, as `strtol(.., 16)` reads it. -/
def hexval (c : Nat) : Nat :=
  if 48 ≤ c ∧ c ≤ 57 then c - 48
  else if 65 ≤ c ∧ c ≤ 70 then c - 55
  else c - 87

/-- The bytes `url_decode(dst, src)` writes to `dst` before the final zero.
The list is the memory at `src`; its end is the terminating zero. -/
def url_decode : Bytes → Bytes
  | [] => []
  | c :: a :: b :: rest2 =>
    if c = 0 then []
    else if c = 37 ∧ a ≠ 0 ∧ b ≠ 0 ∧ isxdigit a = true ∧ isxdigit b = true then
      (hexval a * 16 + hexval b) :: url_decode rest2
    else if c = 43 then 32 :: url_decode (a :: b :: rest2)
    else c :: url_decode (a :: b :: rest2)
  | c :: rest =>
    -- fewer than two bytes are left before the terminator: `src[1]` or `src[2]` is zero
    if c = 0 then []
    else if c = 43 then 32 :: url_decode rest
    else c :: url_decode rest

/-! ## C library string functions, on C strings -/

/-- The C library's `isspace` in the C locale. -/
def isspace (c : Nat) : Bool := c = 32 || (9 ≤ c && c ≤ 13)

/-- The C library's `isdigit`. -/
def isdigit (c : Nat) : Bool := 48 ≤ c && c ≤ 57

/-- The C library's `tolower` in the C locale. -/
def tolower (c : Nat) : Nat := if 65 ≤ c ∧ c ≤ 90 then c + 32 else c

/-- Whether the C string `s` starts with `needle`. -/
def starts_with (needle s : Bytes) : Bool :=
  match needle, s with
  | [], _ => true
  | _ :: _, [] => false
  | n :: ns, c :: cs => n = c && starts_with ns cs

/-- The function `strstr(hay, needle)` on the C string `hay`: the rest of `hay` from the
first occurrence of `needle` on (the returned pointer), `none` for `NULL`. -/
def strstr (needle : Bytes) : Bytes → Option Bytes
  | [] => if needle = [] then some [] else none
  | c :: rest =>
    if starts_with needle (c :: rest) = true then some (c :: rest) else strstr needle rest

/-- The function `strcasestr(hay, needle)`: as `strstr`, comparing bytes after
`tolower`. -/
def strcasestr (needle : Bytes) : Bytes → Option Bytes
  | [] => if needle = [] then some [] else none
  | c :: rest =>
    if starts_with (needle.map tolower) ((c :: rest).map tolower) = true then some (c :: rest)
    else strcasestr needle rest

/-- The effect of `amp = strchr(s, '&'); if (amp) *amp = 0;` on the C string `s`. -/
def cut_at_amp : Bytes → Bytes
  | [] => []
  | c :: rest => if c = 38 then [] else c :: cut_at_amp rest

/-- Whether `strcmp(a, b) == 0` for the C strings held by `a` and `b`. -/
def strcmp_eq (a b : Bytes) : Bool := cstr a = cstr b

/-! ## `sscanf` with the two formats the source uses -/

/-- Input white space skipped by a `%s`, a `%d` or a blank of the format. -/
def skip_space : Bytes → Bytes
  | [] => []
  | c :: rest => if isspace c = true then skip_space rest else c :: rest

/-- The bytes a `%s` stores: the leading run of non-space bytes. -/
def scan_word : Bytes → Bytes
  | [] => []
  | c :: rest => if isspace c = true then [] else c :: scan_word rest

/-- The input left after a `%s` has taken its word. -/
def after_word : Bytes → Bytes
  | [] => []
  | c :: rest => if isspace c = true then c :: rest else after_word rest

/-- Size of the buffers `method` and `path`. -/
def SMALL : Nat := 256

/-- The call `sscanf(hdr, "%s %s", method, path)`: the contents of `method` and `path`
afterwards.  The two words are the first two runs of non-space bytes of the whole header
text, wherever its line ends fall, since CR and LF are white space for `sscanf`.  A
conversion that finds no input stores nothing, so the buffer keeps what it held before
(`method0`, `path0`).  `%s` has no width: a word and its final zero are written whatever
their length, and a word of `SMALL = 256` bytes or more runs past the end of its buffer;
the result is then `none`. -/
def sscanf_request_line (hdr method0 path0 : Bytes) : Option (Bytes × Bytes) :=
  let s := skip_space (cstr hdr)
  if s = [] then some (method0, path0)
  else if SMALL ≤ (scan_word s).length then none
  else
    let s2 := skip_space (after_word s)
    if s2 = [] then some (scan_word s, path0)
    else if SMALL ≤ (scan_word s2).length then none
    else some (scan_word s, scan_word s2)

/-- The leading run of decimal digits. -/
def scan_digits : Bytes → Bytes
  | [] => []
  | c :: rest => if isdigit c = true then c :: scan_digits rest else []

/-- The number written by a string of decimal digits. -/
def digits_value (ds : Bytes) : Nat := ds.foldl (fun acc d => acc * 10 + (d - 48)) 0

/-- What `%d` stores in an `int` for the mathematical value `v`: the value is clamped
to the range of `long` (64 bits) and its low 32 bits are kept, as glibc does. -/
def store_int (v : Int) : Int :=
  let w := max (-(2 ^ 63)) (min v (2 ^ 63 - 1))
  (w + 2 ^ 31) % 2 ^ 32 - 2 ^ 31

/-- The conversion `%d` on the input `s`: skip white space, take an optional sign and
the digits after it; `none` when no digit is there (matching failure). -/
def scan_int (s : Bytes) : Option Int :=
  match skip_space s with
  | [] => none
  | c :: rest =>
    if c = 45 then
      (if scan_digits rest = [] then none
       else some (store_int (-(digits_value (scan_digits rest) : Int))))
    else if c = 43 then
      (if scan_digits rest = [] then none
       else some (store_int (digits_value (scan_digits rest))))
    else
      (if scan_digits (c :: rest) = [] then none
       else some (store_int (digits_value (scan_digits (c :: rest)))))

/-- The input left after the literal text `lit` of a format has been matched byte for
byte, `none` when the input differs from it. -/
def match_literal : Bytes → Bytes → Option Bytes
  | [], s => some s
  | _ :: _, [] => none
  | l :: ls, c :: cs => if l = c then match_literal ls cs else none

/-- The call `sscanf(cl, "Content-Length: %d", &content_len)`: the value of
`content_len` afterwards, `content_len0` being its value before. -/
def sscanf_content_length (cl : Bytes) (content_len0 : Int) : Int :=
  match match_literal (ascii "Content-Length:") cl with
  | none => content_len0
  | some r =>
    match scan_int (skip_space r) with
    | none => content_len0
    | some v => v

/-- Lines 359-361 of `main`: `content_len` after the search for the header. -/
def parse_content_length (hdr : Bytes) : Int :=
  match strcasestr (ascii "Content-Length:") (cstr hdr) with
  | none => 0
  | some cl => sscanf_content_length cl 0

/-! ## Reading from the connection -/

/-- Size of the header buffer. -/
def BUF_SIZE : Nat := 8192

/-- The header terminator CR LF CR LF. -/
def CRLFCRLF : Bytes := [13, 10, 13, 10]

/-- The test `off >= 4 && strncmp(buf + off - 4, "\r\n\r\n", 4) == 0` on the `off` bytes
read so far. -/
def ends_header (buf : Bytes) : Bool :=
  4 ≤ buf.length && buf.drop (buf.length - 4) = CRLFCRLF

/-- The result of a read function: the returned `ssize_t`, the bytes now in the buffer,
and what is left unread on the connection. -/
structure ReadResult where
  ret : Int
  buf : Bytes
  rest : Bytes
deriving DecidableEq

/-- The loop of `read_http_header`, with `buf` the `off = buf.length` bytes read so far.
Each `recv(fd, buf + off, 1, 0)` takes the next byte of the connection, or returns `0`
when the connection has ended. -/
def read_http_header_loop (cap : Nat) : Bytes → Bytes → ReadResult
  | buf, [] =>
    if buf.length + 1 < cap then ⟨0, buf, []⟩
    else ⟨buf.length, buf, []⟩
  | buf, b :: rest =>
    if buf.length + 1 < cap then
      if ends_header (buf ++ [b]) = true then ⟨(buf.length + 1 : Nat), buf ++ [b], rest⟩
      else read_http_header_loop cap (buf ++ [b]) rest
    else ⟨buf.length, buf, b :: rest⟩

/-- The function `read_http_header(fd, buf, cap)` on the connection `conn`. -/
def read_http_header (conn : Bytes) (cap : Nat) : ReadResult :=
  read_http_header_loop cap [] conn

/-- The loop of `read_n` with `k = n - off` bytes still wanted; `recv` hands over one
byte at a time. -/
def read_n_loop : Nat → Bytes → Bytes → ReadResult
  | 0, buf, conn => ⟨buf.length, buf, conn⟩
  | _ + 1, buf, [] => ⟨0, buf, []⟩
  | k + 1, buf, b :: rest => read_n_loop k (buf ++ [b]) rest

/-- The function `read_n(fd, buf, n)` on the connection `conn`. -/
def read_n (conn : Bytes) (n : Nat) : ReadResult := read_n_loop n [] conn

/-! ## Responses -/

/-- The result of `snprintf(buf, cap, ...)` when the formatted text is `s`: at most
`cap - 1` bytes are stored. -/
def snprintf (cap : Nat) (s : Bytes) : Bytes := s.take (cap - 1)

/-- The bytes `send_simple(fd, status, body)` sends: the formatted text, which for every
call in `main` is shorter than the 512 bytes of the local buffer. -/
def send_simple (status body : Bytes) : Bytes :=
  ascii "HTTP/1.1 " ++ status ++
    ascii "\r\nContent-Type: text/plain; charset=utf-8\r\nConnection: close\r\nContent-Length: " ++
    ascii (toString body.length) ++ ascii "\r\n\r\n" ++ body

/-- The fixed text of the output page before the command. -/
def output_head : Bytes :=
  ascii "HTTP/1.1 200 OK\r\n" ++
  ascii "Content-Type: text/html; charset=utf-8\r\n" ++
  ascii "Connection: close\r\n\r\n" ++
  ascii "<!doctype html><html><head><meta charset='utf-8'><title>Output</title>\n" ++
  ascii "<style>body\x7bbackground:\x23ffff80;font-family:monospace;padding:12px;\x7d pre\x7bwhite-space:pre-wrap;\x7d</style>\n" ++
  ascii "</head><body><h3>Comando: "

/-- The fixed text of the output page between the command and the output. -/
def output_mid : Bytes := ascii "</h3><pre>"

/-- The fixed text of the output page after the output. -/
def output_tail : Bytes := ascii "</pre>\n<p><a href='/'>Voltar</a></p></body></html>"

/-- The text the format of lines 420-428 produces for the command `cmddec` and the
output `out`, before any truncation. -/
def output_page_text (cmddec out : Bytes) : Bytes :=
  output_head ++ cmddec ++ output_mid ++ out ++ output_tail

/-- Lines 412-429: the bytes sent for the command `cmddec` and the captured output
`out`.  The buffer has `resp_cap = strlen(out) + 1024` bytes. -/
def output_page (cmddec out : Bytes) : Bytes :=
  let resp_cap := out.length + 1024
  snprintf resp_cap (output_page_text cmddec out)

/-- An entry of the menu: the C strings `caption` and `command`. -/
structure MenuItem where
  caption : Bytes
  command : Bytes
deriving DecidableEq

/-- The string `tmpl_head` of `build_main_page`. -/
def tmpl_head : Bytes :=
  ascii "HTTP/1.1 200 OK\r\n" ++
  ascii "Content-Type: text/html; charset=utf-8\r\n" ++
  ascii "Connection: close\r\n\r\n" ++
  ascii "<!doctype html>\n" ++
  ascii "<html><head><meta charset='utf-8'><title>ProgMan</title>\n" ++
  ascii "<style>\n" ++
  ascii "body \x7b background: \x23ffff80; margin:0; font-family: monospace; \x7d\n" ++
  ascii ".startmenu \x7b position: fixed; left: 10px; top: 10px; background: \x23eee8b0; border: 2px solid \x23888; padding: 8px; box-shadow: 4px 4px 6px rgba(0,0,0,0.2); \x7d\n" ++
  ascii ".menuitem \x7b display:block; margin:4px 0; cursor:pointer; \x7d\n" ++
  ascii ".content \x7b padding: 20px; \x7d\n" ++
  ascii ".runform \x7b margin-top:10px; \x7d\n" ++
  ascii "</style>\n" ++
  ascii "<script>\n" ++
  ascii "function sendCommand(cmd) \x7b\n" ++
  ascii "  var xhr = new XMLHttpRequest();\n" ++
  ascii "  xhr.open('POST','/run',true);\n        xhr.setRequestHeader('Content-Type','application/x-www-form-urlencoded');\n" ++
  ascii "  xhr.onreadystatechange = function() \x7b\n" ++
  ascii "    if (xhr.readyState==4) \x7b\n" ++
  ascii "      document.getElementById('out').innerHTML = '<pre>'+escapeHtml(xhr.responseText)+'</pre>';\n" ++
  ascii "    \x7d\n" ++
  ascii "  \x7d;\n" ++
  ascii "  xhr.send('cmd='+encodeURIComponent(cmd));\n" ++
  ascii "\x7d\n" ++
  ascii "function escapeHtml(s)\x7b return s.replace(/&/g,'&amp;').replace(/</g,'&lt;').replace(/>/g,'&gt;'); \x7d\n" ++
  ascii "</script>\n" ++
  ascii "</head><body>\n" ++
  ascii "<div class='startmenu'><strong>Start</strong>\n"

/-- The text appended after the menu entries; the letter a-acute of the source is the
two bytes 195, 161. -/
def tmpl_tail : Bytes :=
  ascii "<div class='runform'>" ++
  ascii "<input id='cmd' type='text' size='40' placeholder='Comando manual'/>" ++
  ascii "<button onclick=\"sendCommand(document.getElementById('cmd').value);\">Run</button>" ++
  ascii "</div></div>\n" ++
  ascii "<div class='content'><h2>Painel</h2><div id='out'><em>Resultado aparecer" ++ [195, 161] ++
  ascii " aqui...</em></div></div>\n" ++
  ascii "</body></html>\n"

/-- The `line` built for one menu entry (lines 209-214). -/
def menu_line (it : MenuItem) : Bytes :=
  let esc_caption := snprintf 512 it.caption
  snprintf 1024
    (ascii "<a class='menuitem' onclick=\"sendCommand('" ++ it.command ++ ascii "');\">" ++
      esc_caption ++ ascii "</a>\n")

/-- The function `build_main_page`: the text of the returned page. -/
def build_main_page (menu : List MenuItem) : Bytes :=
  menu.foldl (fun resp it => resp ++ menu_line it) tmpl_head ++ tmpl_tail

/-! ## The body of the accept loop -/

/-- What handling one connection did: the bytes sent to the peer, the command handed
to `run_command_capture` if any, and the part of the connection left unread when it is
closed. -/
structure Outcome where
  sent : Bytes
  executed : Option Bytes
  unread : Bytes
deriving DecidableEq

/-- Lines 391-404: the bytes `url_decode` writes to `cmddec` for the body `postbuf`,
`none` when `strstr(postbuf, "cmd=")` is `NULL`. -/
def decode_cmd (postbuf : Bytes) : Option Bytes :=
  match strstr (ascii "cmd=") (cstr postbuf) with
  | none => none
  | some p => some (url_decode (p.drop 4))

/-- Lines 391-404: the C string in `cmddec` when it is handed to
`run_command_capture`. -/
def command_of_body (postbuf : Bytes) : Option Bytes :=
  match decode_cmd postbuf with
  | none => none
  | some cmddec => some (cut_at_amp (cstr cmddec))

/-- Lines 369-389: the contents of `postbuf` and what is left of the connection, `none`
when `read_n` fails.  `hdr` holds the `hdrlen` bytes of the header, `rest` is the unread
part of the connection. -/
def read_body (hdr rest : Bytes) (hdrlen content_len : Int) : Option (Bytes × Bytes) :=
  let body := strstr CRLFCRLF (cstr hdr)
  let off : Nat := match body with
    | none => 0
    | some b => (cstr hdr).length - b.length + 4
  let have_ : Int := match body with
    | none => 0
    | some _ => hdrlen - off
  let copied : Bytes :=
    if have_ > 0 then (hdr.drop off).take (min have_ content_len).toNat else []
  if have_ < content_len then
    let r := read_n rest (content_len - have_).toNat
    if r.ret ≤ 0 then none else some (copied ++ r.buf, r.rest)
  else some (copied, rest)

/-- Lines 341-438 of `main`: parsing and routing of a request whose header read gave
`h` (with `h.ret > 0`).  `menu` is the loaded menu, `run_command_capture` the output
captured for a command, and `method0`, `path0` what the buffers `method` and `path`
hold on entry.  The result is `none` when `sscanf` writes past `method` or `path`. -/
def route_request (menu : List MenuItem) (run_command_capture : Bytes → Bytes)
    (method0 path0 : Bytes) (h : ReadResult) : Option Outcome :=
  let hdrlen := h.ret
  match sscanf_request_line h.buf method0 path0 with
  | none => none
  | some mp =>
    if strcmp_eq mp.1 (ascii "GET") = true ∧ strcmp_eq mp.2 (ascii "/") = true then
      some ⟨build_main_page menu, none, h.rest⟩
    else if strcmp_eq mp.1 (ascii "POST") = true ∧ strcmp_eq mp.2 (ascii "/run") = true then
      let content_len := parse_content_length h.buf
      if content_len ≤ 0 ∨ content_len > 65536 then
        some ⟨send_simple (ascii "411 Length Required")
            (ascii "Content-Length required or too large\n"), none, h.rest⟩
      else
        match read_body h.buf h.rest hdrlen content_len with
        | none => some ⟨[], none, []⟩
        | some (postbuf, rest2) =>
          match command_of_body postbuf with
          | none =>
            some ⟨send_simple (ascii "400 Bad Request") (ascii "No cmd parameter\n"), none,
              rest2⟩
          | some cmddec =>
            let out := cstr (run_command_capture cmddec)
            some ⟨output_page cmddec out, some cmddec, rest2⟩
    else
      some ⟨send_simple (ascii "404 Not Found") (ascii "Not found\n"), none, h.rest⟩

/-- One pass through the accept loop of `main` (lines 329-438) for a connection whose
peer address is `client_addr` and on which the peer sends `conn`; `none` when `sscanf`
writes past `method` or `path`. -/
def handle_connection (menu : List MenuItem) (run_command_capture : Bytes → Bytes)
    (client_addr : sockaddr_storage) (method0 path0 conn : Bytes) : Option Outcome :=
  if is_local_addr (some client_addr) = 0 then
    some ⟨send_simple (ascii "403 Forbidden") (ascii "Forbidden: only localhost allowed\n"),
      none, conn⟩
  else
    let h := read_http_header conn BUF_SIZE
    if h.ret ≤ 0 then some ⟨[], none, h.rest⟩
    else route_request menu run_command_capture method0 path0 h

/-! ## Notions the specification uses -/

/-- Whether a `%` followed by `rest` starts a sequence `%XX` with two hexadecimal
digits. -/
def hex_pair (rest : Bytes) : Bool :=
  match rest with
  | a :: b :: _ => isxdigit a && isxdigit b
  | _ => false

/-- Upper-case hexadecimal digit of a number below 16. -/
def hex_upper (n : Nat) : Nat := if n < 10 then 48 + n else 55 + n

/-- Lower-case hexadecimal digit of a number below 16. -/
def hex_lower (n : Nat) : Nat := if n < 10 then 48 + n else 87 + n

/-- The characters `encodeURIComponent` leaves as they are:
`A-Z a-z 0-9 - _ . ! ~ * ' ( )`. -/
def unreserved (c : Nat) : Bool :=
  (65 ≤ c && c ≤ 90) || (97 ≤ c && c ≤ 122) || (48 ≤ c && c ≤ 57) ||
    c = 45 || c = 95 || c = 46 || c = 33 || c = 126 || c = 42 || c = 39 || c = 40 || c = 41

/-- Every way a percent-encoder may write the byte `b`: `%` and two hexadecimal digits
in either case, the byte itself when it is unreserved, `+` for a space. -/
def encodings (b : Nat) : List Bytes :=
  [[37, hex_upper (b / 16), hex_upper (b % 16)], [37, hex_upper (b / 16), hex_lower (b % 16)],
   [37, hex_lower (b / 16), hex_upper (b % 16)], [37, hex_lower (b / 16), hex_lower (b % 16)]]
  ++ (if unreserved b = true then [[b]] else [])
  ++ (if b = 32 then [[43]] else [])

/-- The relation "`e` is a percent-encoding of `s`": byte after byte, `e` is made of one
of the `encodings` of each byte of `s`. -/
inductive IsEncoding : Bytes → Bytes → Prop
  | nil : IsEncoding [] []
  | cons (b : Nat) (x s e : Bytes) : x ∈ encodings b → IsEncoding s e →
      IsEncoding (b :: s) (x ++ e)

/-- The encoding the script of the menu page sends, `encodeURIComponent`, on the bytes
of a string: unreserved characters as they are, every other byte as `%XX` with
upper-case digits. -/
def encodeURIComponent : Bytes → Bytes
  | [] => []
  | b :: s =>
    (if unreserved b = true then [b] else [37, hex_upper (b / 16), hex_upper (b % 16)])
      ++ encodeURIComponent s

/-- The contents of `method` and `path` after `sscanf(hdr, "%s %s", method, path)` on the
header read from the connection `conn`: the first two words of the header text, or what
the buffers held before (`method0`, `path0`) where the header has no such word; `none`
when a word does not fit its buffer. -/
def request_line (method0 path0 conn : Bytes) : Option (Bytes × Bytes) :=
  sscanf_request_line (read_http_header conn BUF_SIZE).buf method0 path0

/-- The content length parsed from the header of the connection `conn`. -/
def request_content_length (conn : Bytes) : Int :=
  parse_content_length (read_http_header conn BUF_SIZE).buf

/-- What follows the header on the connection `conn`. -/
def after_header (conn : Bytes) : Bytes :=
  conn.drop (read_http_header conn BUF_SIZE).buf.length

/-- The body of the request on `conn`: the `Content-Length` bytes that follow the
header. -/
def request_body (conn : Bytes) : Bytes :=
  (after_header conn).take (request_content_length conn).toNat

/-- The loopback peer address `::1`, as `accept` reports it on the IPv6 listening
socket. -/
def addr_loopback : sockaddr_storage := ⟨AF_INET6, fun _ => 0, in6addr_loopback⟩

/-- A stand-in for the command runner in examples: the output is the text
`ran: ` followed by the command. -/
def echo_runner (cmd : Bytes) : Bytes := ascii "ran: " ++ cmd

/-- A request of `BUF_SIZE - 1 = 8191` bytes without any CR LF CR LF: `GET / ` followed
by 8185 letters `a`. -/
def long_request : Bytes := ascii "GET / " ++ List.replicate 8185 97

/-- A request whose first line holds the single word `POST`; the word `/run` stands on
the next line. -/
def request_on_two_lines : Bytes :=
  ascii "POST\r\n/run\r\nContent-Length: 6\r\n\r\ncmd=ls"

/-- A request whose first word has 256 bytes. -/
def request_with_long_word : Bytes :=
  List.replicate 256 97 ++ ascii " / HTTP/1.1\r\n\r\n"

/-- The prefix of length `L` of `stream` is the shortest one that ends in
CR LF CR LF. -/
def ShortestHeader (stream : Bytes) (L : Nat) : Prop :=
  L ≤ stream.length ∧ CRLFCRLF <:+ stream.take L ∧
    ∀ k, k < L → ¬ CRLFCRLF <:+ stream.take k

end Shell

namespace Shell

theorem is_local_addr_v6_loop (b : Fin 16 → Fin 256) :
    ∀ n, n ≤ 15 →
      (is_local_addr_v6 b n ≠ 0 ↔
        (∀ i : Fin 16, 15 - n ≤ i.val → i.val < 15 → b i = 0) ∧ b 15 = 1) := by
  intro n
  induction n with
  | zero =>
    intro _
    simp only [is_local_addr_v6]
    constructor
    · intro h
      refine ⟨fun i h1 h2 => by omega, ?_⟩
      by_contra hb
      simp [hb] at h
    · rintro ⟨_, hb⟩
      simp [hb]
  | succ n ih =>
    intro hn
    have ih2 := ih (by omega)
    simp only [is_local_addr_v6]
    have hidx : ((Fin.ofNat (15 - (n + 1)) : Fin 16)).val = 15 - (n + 1) := by
      simp only [Fin.ofNat]
      exact Nat.mod_eq_of_lt (by omega)
    by_cases hb : b (Fin.ofNat (15 - (n + 1))) = 0
    · rw [if_neg (by simpa using hb), ih2]
      constructor
      · rintro ⟨h1, h2⟩
        refine ⟨fun i hi1 hi2 => ?_, h2⟩
        by_cases hi : i.val = 15 - (n + 1)
        · have : i = Fin.ofNat (15 - (n + 1)) := Fin.ext (by rw [hidx]; exact hi)
          rw [this]; exact hb
        · exact h1 i (by omega) hi2
      · rintro ⟨h1, h2⟩
        exact ⟨fun i hi1 hi2 => h1 i (by omega) hi2, h2⟩
    · rw [if_pos hb]
      constructor
      · intro h; exact absurd rfl h
      · rintro ⟨h1, _⟩
        exact absurd (h1 _ (by rw [hidx]) (by rw [hidx]; omega)) hb

theorem is_local_addr_v6_iff (b : Fin 16 → Fin 256) :
    is_local_addr_v6 b 15 ≠ 0 ↔ b = in6addr_loopback := by
  rw [is_local_addr_v6_loop b 15 (le_refl _)]
  constructor
  · rintro ⟨h1, h2⟩
    funext i
    simp only [in6addr_loopback]
    by_cases hi : i = 15
    · rw [if_pos hi, hi]; exact h2
    · rw [if_neg hi]
      refine h1 i (by omega) ?_
      have := i.isLt
      have hne : i.val ≠ 15 := fun h => hi (Fin.ext h)
      omega
  · rintro rfl
    refine ⟨fun i _ hi => ?_, by simp [in6addr_loopback]⟩
    have hne : i ≠ 15 := fun h => by rw [h] at hi; exact absurd hi (by decide)
    simp [in6addr_loopback, hne]

/-- C1: `is_local_addr` answers true exactly for an IPv4 address whose first octet
is 127 and for the IPv6 address `::1`; a null address, every other address and every
other family give false. -/
theorem is_local_addr_iff (addr : Option sockaddr_storage) :
    is_local_addr addr ≠ 0 ↔
      ∃ a, addr = some a ∧
        ((a.ss_family = AF_INET ∧ (a.sin_addr 0).val = 127) ∨
         (a.ss_family = AF_INET6 ∧ a.sin6_addr = in6addr_loopback)) := by
  cases addr with
  | none => simp [is_local_addr]
  | some a =>
    simp only [is_local_addr, Option.some.injEq, exists_eq_left']
    by_cases h4 : a.ss_family = AF_INET
    · have h6 : a.ss_family ≠ AF_INET6 := by rw [h4]; decide
      have hshift : ntohl_s_addr a.sin_addr >>> 24 = (a.sin_addr 0).val := by
        simp only [ntohl_s_addr, Nat.shiftRight_eq_div_pow]
        have h1 := (a.sin_addr 1).isLt
        have h2 := (a.sin_addr 2).isLt
        have h3 := (a.sin_addr 3).isLt
        omega
      have hne : AF_INET ≠ AF_INET6 := by decide
      simp [h4, hne, hshift]
    · by_cases h6 : a.ss_family = AF_INET6
      · have hne : AF_INET6 ≠ AF_INET := by decide
        have := is_local_addr_v6_iff a.sin6_addr
        simp only [ne_eq] at this
        simp [h6, hne, this]
      · simp [h4, h6]

end Shell

namespace Shell

/-! ## `url_decode` -/

theorem url_decode_zero (rest : Bytes) : url_decode (0 :: rest) = [] := by
  rcases rest with _ | ⟨a, _ | ⟨b, r⟩⟩ <;> simp [url_decode]

theorem url_decode_plus (rest : Bytes) : url_decode (43 :: rest) = 32 :: url_decode rest := by
  rcases rest with _ | ⟨a, _ | ⟨b, r⟩⟩ <;> simp [url_decode]

theorem url_decode_other (c : Nat) (rest : Bytes) (h0 : c ≠ 0) (h37 : c ≠ 37) (h43 : c ≠ 43) :
    url_decode (c :: rest) = c :: url_decode rest := by
  rcases rest with _ | ⟨a, _ | ⟨b, r⟩⟩ <;> simp [url_decode, h0, h37, h43]

theorem isxdigit_ne_zero {a : Nat} (h : isxdigit a = true) : a ≠ 0 := by
  rintro rfl
  simp [isxdigit] at h

theorem url_decode_hex (a b : Nat) (r : Bytes) (ha : isxdigit a = true) (hb : isxdigit b = true) :
    url_decode (37 :: a :: b :: r) = (hexval a * 16 + hexval b) :: url_decode r := by
  simp [url_decode, ha, hb, isxdigit_ne_zero ha, isxdigit_ne_zero hb]

theorem url_decode_percent_literal (rest : Bytes) (h : hex_pair rest = false) :
    url_decode (37 :: rest) = 37 :: url_decode rest := by
  rcases rest with _ | ⟨a, _ | ⟨b, r⟩⟩
  · simp [url_decode]
  · simp [url_decode]
  · simp only [hex_pair, Bool.and_eq_false_imp] at h
    have : ¬ (isxdigit a = true ∧ isxdigit b = true) := fun ⟨h1, h2⟩ => by
      have := h h1
      rw [h2] at this
      exact absurd this (by decide)
    simp only [url_decode]
    rw [if_neg (by decide), if_neg (fun hc => this ⟨hc.2.2.2.1, hc.2.2.2.2⟩), if_neg (by decide)]

theorem url_decode_length_le_aux :
    ∀ n (s : Bytes), s.length ≤ n → (url_decode s).length ≤ s.length := by
  intro n
  induction n with
  | zero =>
    intro s hs
    have : s = [] := List.eq_nil_of_length_eq_zero (by omega)
    subst this
    simp [url_decode]
  | succ n ih =>
    intro s hs
    rcases s with _ | ⟨c, _ | ⟨a, _ | ⟨b, r⟩⟩⟩
    · simp [url_decode]
    · simp only [url_decode]
      split_ifs <;> simp
    · have h1 := ih [a] (by simp at hs ⊢; omega)
      simp only [url_decode] at h1 ⊢
      split_ifs <;> simp at h1 ⊢
    · have h1 := ih (a :: b :: r) (by simp at hs ⊢; omega)
      have h2 := ih r (by simp at hs ⊢; omega)
      rw [url_decode]
      split_ifs <;> simp only [List.length_cons, List.length_nil] at h1 ⊢ <;> omega

theorem url_decode_length_le (s : Bytes) : (url_decode s).length ≤ s.length :=
  url_decode_length_le_aux s.length s (le_refl _)

theorem hex_pair_append (t rest : Bytes) : hex_pair (t ++ 37 :: rest) = hex_pair t := by
  rcases t with _ | ⟨a, _ | ⟨b, r⟩⟩
  · rcases rest with _ | ⟨x, r⟩ <;> simp [hex_pair, isxdigit]
  · simp [hex_pair, isxdigit]
  · simp [hex_pair]

theorem url_decode_append_percent_aux :
    ∀ n (pre rest : Bytes), pre.length ≤ n → (∀ b ∈ pre, b ≠ 0) →
      url_decode (pre ++ 37 :: rest) = url_decode pre ++ url_decode (37 :: rest) := by
  intro n
  induction n with
  | zero =>
    intro pre rest hlen _
    have : pre = [] := List.eq_nil_of_length_eq_zero (by omega)
    subst this
    simp [url_decode]
  | succ n ih =>
    intro pre rest hlen h0
    rcases pre with _ | ⟨c, t⟩
    · simp [url_decode]
    · have hc0 : c ≠ 0 := h0 c (by simp)
      have ht0 : ∀ b ∈ t, b ≠ 0 := fun b hb => h0 b (by simp [hb])
      have hlt : t.length ≤ n := by simp at hlen; omega
      by_cases h37 : c = 37
      · subst h37
        cases hp : hex_pair t with
        | false =>
          have hp2 : hex_pair (t ++ 37 :: rest) = false := by rw [hex_pair_append]; exact hp
          rw [List.cons_append, url_decode_percent_literal _ hp2, url_decode_percent_literal _ hp,
            ih t rest hlt ht0, List.cons_append]
        | true =>
          rcases t with _ | ⟨a, _ | ⟨b, r⟩⟩
          · simp [hex_pair] at hp
          · simp [hex_pair] at hp
          · simp only [hex_pair, Bool.and_eq_true] at hp
            have hr0 : ∀ x ∈ r, x ≠ 0 := fun x hx => ht0 x (by simp [hx])
            have hrl : r.length ≤ n := by simp at hlt; omega
            rw [List.cons_append, List.cons_append, List.cons_append,
              url_decode_hex _ _ _ hp.1 hp.2, url_decode_hex _ _ _ hp.1 hp.2,
              ih r rest hrl hr0, List.cons_append]
      · by_cases h43 : c = 43
        · subst h43
          rw [List.cons_append, url_decode_plus, url_decode_plus, ih t rest hlt ht0,
            List.cons_append]
        · rw [List.cons_append, url_decode_other c _ hc0 h37 h43,
            url_decode_other c _ hc0 h37 h43, ih t rest hlt ht0, List.cons_append]

theorem url_decode_append_percent (pre rest : Bytes) (h0 : ∀ b ∈ pre, b ≠ 0) :
    url_decode (pre ++ 37 :: rest) = url_decode pre ++ url_decode (37 :: rest) :=
  url_decode_append_percent_aux pre.length pre rest (le_refl _) h0

theorem url_decode_percent_pair (rest : Bytes) (h : hex_pair rest = true) :
    url_decode (37 :: rest) =
      (hexval (rest.getD 0 0) * 16 + hexval (rest.getD 1 0)) :: url_decode (rest.drop 2) := by
  rcases rest with _ | ⟨a, _ | ⟨b, r⟩⟩
  · simp [hex_pair] at h
  · simp [hex_pair] at h
  · simp only [hex_pair, Bool.and_eq_true] at h
    rw [url_decode_hex _ _ _ h.1 h.2]
    simp

/-- C5 (as amended): at every `%` of the input that lies before the first zero byte, the
three bytes `%XX` are decoded to one byte exactly when both `X` are hexadecimal digits;
otherwise only the `%` itself is copied and decoding goes on, in the ordinary way, with
the byte right after it. -/
theorem url_decode_at_percent (pre rest : Bytes) (h0 : ∀ b ∈ pre, b ≠ 0) :
    url_decode (pre ++ 37 :: rest) =
      url_decode pre ++
        (if hex_pair rest = true then
          (hexval (rest.getD 0 0) * 16 + hexval (rest.getD 1 0)) :: url_decode (rest.drop 2)
         else 37 :: url_decode rest) := by
  rw [url_decode_append_percent pre rest h0]
  cases hp : hex_pair rest with
  | true => rw [url_decode_percent_pair rest hp]; simp
  | false => rw [url_decode_percent_literal rest hp]; simp

/-- Witness of C5 (as amended): in `a%+a` the `%` is copied and the `+` after it is
decoded to a space. -/
theorem url_decode_at_percent_witness :
    url_decode (ascii "a" ++ 37 :: ascii "+a") =
      url_decode (ascii "a") ++
        (if hex_pair (ascii "+a") = true then
          (hexval ((ascii "+a").getD 0 0) * 16 + hexval ((ascii "+a").getD 1 0)) ::
            url_decode ((ascii "+a").drop 2)
         else 37 :: url_decode (ascii "+a")) :=
  url_decode_at_percent (ascii "a") (ascii "+a") (by decide)

/-- C5, counterexample: `%+a` is decoded to `% a` and `%%41` to `%A`, not left as they
are. -/
theorem url_decode_malformed_not_literal :
    url_decode (ascii "%+a") = ascii "% a" ∧ url_decode (ascii "%+a") ≠ ascii "%+a" ∧
    url_decode (ascii "%%41") = ascii "%A" ∧ url_decode (ascii "%%41") ≠ ascii "%%41" := by
  decide

theorem hex_digit_facts :
    ∀ n, n < 16 →
      isxdigit (hex_upper n) = true ∧ hexval (hex_upper n) = n ∧
      isxdigit (hex_lower n) = true ∧ hexval (hex_lower n) = n := by
  decide

theorem unreserved_plain {b : Nat} (h : unreserved b = true) : b ≠ 0 ∧ b ≠ 37 ∧ b ≠ 43 := by
  refine ⟨?_, ?_, ?_⟩ <;> rintro rfl <;> exact absurd h (by decide)

theorem url_decode_encoding_step (b : Nat) (x e : Bytes) (hb : b < 256)
    (hx : x ∈ encodings b) : url_decode (x ++ e) = b :: url_decode e := by
  have hhi := hex_digit_facts (b / 16) (by omega)
  have hlo := hex_digit_facts (b % 16) (by omega)
  have hval : b / 16 * 16 + b % 16 = b := by omega
  simp only [encodings, List.mem_append, List.mem_cons, List.mem_singleton, List.not_mem_nil,
    or_false] at hx
  rcases hx with ((rfl | rfl | rfl | rfl) | hx) | hx
  · rw [List.cons_append, List.cons_append, List.cons_append, List.nil_append,
      url_decode_hex _ _ _ hhi.1 hlo.1, hhi.2.1, hlo.2.1, hval]
  · rw [List.cons_append, List.cons_append, List.cons_append, List.nil_append,
      url_decode_hex _ _ _ hhi.1 hlo.2.2.1, hhi.2.1, hlo.2.2.2, hval]
  · rw [List.cons_append, List.cons_append, List.cons_append, List.nil_append,
      url_decode_hex _ _ _ hhi.2.2.1 hlo.1, hhi.2.2.2, hlo.2.1, hval]
  · rw [List.cons_append, List.cons_append, List.cons_append, List.nil_append,
      url_decode_hex _ _ _ hhi.2.2.1 hlo.2.2.1, hhi.2.2.2, hlo.2.2.2, hval]
  · split_ifs at hx with hu
    · simp only [List.mem_singleton] at hx
      subst hx
      obtain ⟨h1, h2, h3⟩ := unreserved_plain hu
      rw [List.cons_append, List.nil_append, url_decode_other b _ h1 h2 h3]
    · simp at hx
  · split_ifs at hx with h32
    · simp only [List.mem_singleton] at hx
      subst hx
      subst h32
      rw [List.cons_append, List.nil_append, url_decode_plus]
    · simp at hx

theorem encodeURIComponent_isEncoding (s : Bytes) : IsEncoding s (encodeURIComponent s) := by
  induction s with
  | nil => exact IsEncoding.nil
  | cons b s ih =>
    rw [encodeURIComponent]
    refine IsEncoding.cons b _ s _ ?_ ih
    by_cases hu : unreserved b = true
    · simp [encodings, hu]
    · simp [encodings, hu]

theorem cstr_of_no_zero (s : Bytes) (h : ∀ b ∈ s, b ≠ 0) : cstr s = s := by
  induction s with
  | nil => rfl
  | cons c t ih =>
    have hc : c ≠ 0 := h c (by simp)
    simp only [cstr, if_neg hc]
    rw [ih (fun b hb => h b (by simp [hb]))]

theorem url_decode_of_isEncoding (s e : Bytes) (hs : ∀ b ∈ s, b < 256)
    (h : IsEncoding s e) : url_decode e = s := by
  induction h with
  | nil => simp [url_decode]
  | cons b x s e hx _ ih =>
    rw [url_decode_encoding_step b x e (hs b (by simp)) hx,
      ih (fun c hc => hs c (by simp [hc]))]

/-- C4: for a byte string `s` without zero byte, decoding any percent-encoding `e` of `s`
(each byte written as `%` and two hexadecimal digits of either case, or as itself when
unreserved, or a space as `+`) gives back `s`, as the bytes written and as the C string
read from them; so does decoding `encodeURIComponent s`. -/
theorem url_decode_roundtrip (s e : Bytes) (hs : ∀ b ∈ s, 0 < b ∧ b < 256)
    (h : IsEncoding s e) :
    url_decode e = s ∧ cstr (url_decode e) = s ∧ url_decode (encodeURIComponent s) = s := by
  have hlt : ∀ b ∈ s, b < 256 := fun b hb => (hs b hb).2
  have hne : ∀ b ∈ s, b ≠ 0 := fun b hb => Nat.pos_iff_ne_zero.mp (hs b hb).1
  have h1 := url_decode_of_isEncoding s e hlt h
  refine ⟨h1, ?_, url_decode_of_isEncoding s _ hlt (encodeURIComponent_isEncoding s)⟩
  rw [h1]
  exact cstr_of_no_zero s hne

/-- Witness of C4: `ls -l &` written as `l%73+%2dl%20%26`. -/
theorem url_decode_roundtrip_witness :
    url_decode (ascii "l%73+%2dl%20%26") = ascii "ls -l &" ∧
    cstr (url_decode (ascii "l%73+%2dl%20%26")) = ascii "ls -l &" ∧
    url_decode (encodeURIComponent (ascii "ls -l &")) = ascii "ls -l &" :=
  url_decode_roundtrip (ascii "ls -l &") (ascii "l%73+%2dl%20%26") (by decide)
    (IsEncoding.cons 108 [108] _ _ (by decide)
      (IsEncoding.cons 115 [37, 55, 51] _ _ (by decide)
        (IsEncoding.cons 32 [43] _ _ (by decide)
          (IsEncoding.cons 45 [37, 50, 100] _ _ (by decide)
            (IsEncoding.cons 108 [108] _ _ (by decide)
              (IsEncoding.cons 32 [37, 50, 48] _ _ (by decide)
                (IsEncoding.cons 38 [37, 50, 54] _ _ (by decide) IsEncoding.nil)))))))

/-! ## `read_http_header` -/

theorem ends_header_iff (l : Bytes) : ends_header l = true ↔ CRLFCRLF <:+ l := by
  simp only [ends_header, Bool.and_eq_true, decide_eq_true_eq]
  constructor
  · rintro ⟨_, h2⟩
    exact ⟨l.take (l.length - 4), by rw [← h2, List.take_append_drop]⟩
  · rintro ⟨t, rfl⟩
    simp [CRLFCRLF]

theorem ends_header_eq_false_iff (l : Bytes) : ends_header l = false ↔ ¬ CRLFCRLF <:+ l := by
  rw [← ends_header_iff]
  simp

theorem read_http_header_loop_found (cap : Nat) :
    ∀ (conn buf : Bytes) (n : Nat), 1 ≤ n → n ≤ conn.length → buf.length + n + 1 ≤ cap →
      ends_header (buf ++ conn.take n) = true →
      (∀ k, 1 ≤ k → k < n → ends_header (buf ++ conn.take k) = false) →
      read_http_header_loop cap buf conn =
        ⟨((buf.length + n : Nat) : Int), buf ++ conn.take n, conn.drop n⟩ := by
  intro conn
  induction conn with
  | nil =>
    intro buf n h1 h2
    simp at h2
    omega
  | cons b rest ih =>
    intro buf n h1 h2 hcap hend hno
    obtain ⟨m, rfl⟩ : ∃ m, n = m + 1 := ⟨n - 1, by omega⟩
    have hlt : buf.length + 1 < cap := by omega
    simp only [read_http_header_loop, if_pos hlt]
    by_cases hm : m = 0
    · subst hm
      simp only [List.take_succ_cons, List.take_zero] at hend
      simp [hend]
    · have hk1 := hno 1 (le_refl _) (by omega)
      simp only [List.take_succ_cons, List.take_zero] at hk1
      simp only [hk1, Bool.false_eq_true, if_false]
      have := ih (buf ++ [b]) m (by omega) (by simpa using h2) (by simp; omega)
        (by simpa using hend)
        (fun k hk1 hk2 => by
          have := hno (k + 1) (by omega) (by omega)
          simpa using this)
      rw [this]
      simp
      omega

theorem read_http_header_loop_full (cap : Nat) :
    ∀ (conn buf : Bytes), buf.length + 1 ≤ cap → cap - 1 - buf.length ≤ conn.length →
      (∀ k, 1 ≤ k → k ≤ cap - 1 - buf.length → ends_header (buf ++ conn.take k) = false) →
      read_http_header_loop cap buf conn =
        ⟨((cap - 1 : Nat) : Int), buf ++ conn.take (cap - 1 - buf.length),
          conn.drop (cap - 1 - buf.length)⟩ := by
  intro conn
  induction conn with
  | nil =>
    intro buf h1 h2 _
    simp at h2
    have hnlt : ¬ buf.length + 1 < cap := by omega
    have : buf.length = cap - 1 := by omega
    simp only [read_http_header_loop, if_neg hnlt, h2]
    simp [this]
  | cons b rest ih =>
    intro buf h1 h2 hno
    by_cases hlt : buf.length + 1 < cap
    · simp only [read_http_header_loop, if_pos hlt]
      have hk1 := hno 1 (le_refl _) (by omega)
      simp only [List.take_succ_cons, List.take_zero] at hk1
      simp only [hk1, Bool.false_eq_true, if_false]
      obtain ⟨m, hm⟩ : ∃ m, cap - 1 - buf.length = m + 1 := ⟨cap - 1 - buf.length - 1, by omega⟩
      have hm2 : cap - 1 - (buf ++ [b]).length = m := by simp; omega
      have := ih (buf ++ [b]) (by simp; omega) (by rw [hm2]; simp at h2; omega)
        (fun k hk1 hk2 => by
          have := hno (k + 1) (by omega) (by omega)
          simpa using this)
      rw [this, hm2, hm]
      simp
    · have h0 : cap - 1 - buf.length = 0 := by omega
      have : buf.length = cap - 1 := by omega
      simp only [read_http_header_loop, if_neg hlt, h0]
      simp [this]

theorem read_http_header_loop_eof (cap : Nat) :
    ∀ (conn buf : Bytes), buf.length + conn.length + 1 < cap →
      (∀ k, 1 ≤ k → k ≤ conn.length → ends_header (buf ++ conn.take k) = false) →
      read_http_header_loop cap buf conn = ⟨0, buf ++ conn, []⟩ := by
  intro conn
  induction conn with
  | nil =>
    intro buf h1 _
    have hlt : buf.length + 1 < cap := by simpa using h1
    simp [read_http_header_loop, hlt]
  | cons b rest ih =>
    intro buf h1 hno
    have hlt : buf.length + 1 < cap := by simp at h1; omega
    simp only [read_http_header_loop, if_pos hlt]
    have hk1 := hno 1 (le_refl _) (by simp)
    simp only [List.take_succ_cons, List.take_zero] at hk1
    simp only [hk1, Bool.false_eq_true, if_false]
    have := ih (buf ++ [b]) (by simp at h1 ⊢; omega)
      (fun k hk1 hk2 => by
        have := hno (k + 1) (by omega) (by simp; omega)
        simpa using this)
    rw [this]
    simp

theorem read_http_header_loop_inv (cap : Nat) :
    ∀ (conn buf : Bytes), buf.length + 1 ≤ cap →
      (∀ k, k ≤ buf.length → ends_header (buf.take k) = false) →
      (read_http_header_loop cap buf conn).buf ++ (read_http_header_loop cap buf conn).rest
          = buf ++ conn ∧
        (read_http_header_loop cap buf conn).buf.length + 1 ≤ cap ∧
        ((read_http_header_loop cap buf conn).ret = 0 ∨
          (read_http_header_loop cap buf conn).ret =
            ((read_http_header_loop cap buf conn).buf.length : Int)) ∧
        (∀ k, k < (read_http_header_loop cap buf conn).buf.length →
          ends_header ((read_http_header_loop cap buf conn).buf.take k) = false) := by
  intro conn
  induction conn with
  | nil =>
    intro buf h1 hno
    by_cases hlt : buf.length + 1 < cap
    · have hr : read_http_header_loop cap buf [] = ⟨0, buf, []⟩ := by
        simp only [read_http_header_loop, if_pos hlt]
      rw [hr]
      exact ⟨rfl, h1, Or.inl rfl, fun k hk => hno k (le_of_lt hk)⟩
    · have hr : read_http_header_loop cap buf [] = ⟨buf.length, buf, []⟩ := by
        simp only [read_http_header_loop, if_neg hlt]
      rw [hr]
      exact ⟨rfl, h1, Or.inr rfl, fun k hk => hno k (le_of_lt hk)⟩
  | cons b rest ih =>
    intro buf h1 hno
    have htake : ∀ k, k ≤ buf.length → (buf ++ [b]).take k = buf.take k := fun k hk => by
      rw [List.take_append_of_le_length hk]
    by_cases hlt : buf.length + 1 < cap
    · cases he : ends_header (buf ++ [b]) with
      | true =>
        have hr : read_http_header_loop cap buf (b :: rest) =
            ⟨(buf.length + 1 : Nat), buf ++ [b], rest⟩ := by
          simp only [read_http_header_loop, if_pos hlt, he, if_true]
        rw [hr]
        refine ⟨by simp, by simp; omega, Or.inr (by simp), fun k hk => ?_⟩
        simp only [List.length_append, List.length_singleton] at hk
        show ends_header ((buf ++ [b]).take k) = false
        rw [htake k (by omega)]
        exact hno k (by omega)
      | false =>
        have hr : read_http_header_loop cap buf (b :: rest) =
            read_http_header_loop cap (buf ++ [b]) rest := by
          simp only [read_http_header_loop, if_pos hlt, he, Bool.false_eq_true, if_false]
        rw [hr]
        have := ih (buf ++ [b]) (by simp; omega) (fun k hk => by
          simp only [List.length_append, List.length_singleton] at hk
          by_cases hk2 : k ≤ buf.length
          · rw [htake k hk2]; exact hno k hk2
          · have : k = (buf ++ [b]).length := by simp; omega
            rw [this, List.take_length]; exact he)
        simpa using this
    · have hr : read_http_header_loop cap buf (b :: rest) = ⟨buf.length, buf, b :: rest⟩ := by
        simp only [read_http_header_loop, if_neg hlt]
      rw [hr]
      exact ⟨rfl, h1, Or.inr rfl, fun k hk => hno k (le_of_lt hk)⟩

theorem ends_header_nil_take (k : Nat) : ends_header (([] : Bytes).take k) = false := by
  simp [ends_header]

theorem read_http_header_inv (conn : Bytes) (cap : Nat) (hcap : 1 ≤ cap) :
    (read_http_header conn cap).buf ++ (read_http_header conn cap).rest = conn ∧
      (read_http_header conn cap).buf.length + 1 ≤ cap ∧
      ((read_http_header conn cap).ret = 0 ∨
        (read_http_header conn cap).ret = ((read_http_header conn cap).buf.length : Int)) ∧
      (∀ k, k < (read_http_header conn cap).buf.length →
        ends_header ((read_http_header conn cap).buf.take k) = false) := by
  have := read_http_header_loop_inv cap conn [] (by simpa using hcap)
    (fun k _ => ends_header_nil_take k)
  simpa [read_http_header] using this

/-- C8: `read_http_header` on a connection that delivers `stream`, with `cap >= 2`.
If the shortest prefix of the stream ending in CR LF CR LF has length `L <= cap - 1`, the
function returns `L`, the buffer holds exactly that prefix and the rest of the stream is
unread.  If no prefix of length up to `cap - 1` ends in the terminator and the stream
has at least `cap - 1` bytes, it reads exactly `cap - 1` bytes and returns `cap - 1`.  If
the stream ends before that without a terminator, it returns `0`.  In every case the
bytes read are a prefix of the stream of length at most `cap - 1`. -/
theorem read_http_header_spec (stream : Bytes) (cap : Nat) (hcap : 2 ≤ cap) :
    (∀ L, ShortestHeader stream L → L ≤ cap - 1 →
      read_http_header stream cap = ⟨(L : Int), stream.take L, stream.drop L⟩) ∧
    ((∀ k, k ≤ cap - 1 → ¬ CRLFCRLF <:+ stream.take k) → cap - 1 ≤ stream.length →
      read_http_header stream cap =
        ⟨((cap - 1 : Nat) : Int), stream.take (cap - 1), stream.drop (cap - 1)⟩) ∧
    ((∀ k, k ≤ stream.length → ¬ CRLFCRLF <:+ stream.take k) → stream.length < cap - 1 →
      (read_http_header stream cap).ret ≤ 0) ∧
    ((read_http_header stream cap).buf ++ (read_http_header stream cap).rest = stream ∧
      (read_http_header stream cap).buf.length ≤ cap - 1 ∧
      stream.length - (read_http_header stream cap).rest.length ≤ cap - 1) := by
  refine ⟨?_, ?_, ?_, ?_⟩
  · rintro L ⟨hL, hsuf, hmin⟩ hLcap
    have hL4 : 4 ≤ L := by
      obtain ⟨t, ht⟩ := hsuf
      have := congrArg List.length ht
      simp [CRLFCRLF] at this
      omega
    have := read_http_header_loop_found cap stream [] L (by omega) hL (by simp; omega)
      (by simpa using (ends_header_iff _).mpr hsuf)
      (fun k _ hk => by simpa using (ends_header_eq_false_iff _).mpr (hmin k hk))
    simpa [read_http_header] using this
  · intro hno hlen
    have := read_http_header_loop_full cap stream [] (by simp; omega) (by simpa using hlen)
      (fun k _ hk => by
        simp only [List.length_nil, Nat.sub_zero] at hk
        simpa using (ends_header_eq_false_iff _).mpr (hno k hk))
    simpa [read_http_header] using this
  · intro hno hlen
    have := read_http_header_loop_eof cap stream [] (by simp; omega)
      (fun k _ hk => by simpa using (ends_header_eq_false_iff _).mpr (hno k hk))
    simp [read_http_header, this]
  · have h := read_http_header_inv stream cap (by omega)
    refine ⟨h.1, by omega, ?_⟩
    have hl := congrArg List.length h.1
    simp only [List.length_append] at hl
    omega

/-- Witness of C8: on `GET / HTTP/1.1` CR LF CR LF `xy` the header reader takes the 18
bytes up to the terminator and leaves `xy` unread. -/
theorem read_http_header_spec_witness :
    2 ≤ BUF_SIZE ∧
    read_http_header (ascii "GET / HTTP/1.1\r\n\r\nxy") BUF_SIZE =
      ⟨18, ascii "GET / HTTP/1.1\r\n\r\n", ascii "xy"⟩ :=
  ⟨by decide,
   (read_http_header_spec (ascii "GET / HTTP/1.1\r\n\r\nxy") BUF_SIZE (by decide)).1 18
     ⟨by decide, by decide, by decide⟩ (by decide)⟩

/-! ## String searches -/

theorem starts_with_iff (needle : Bytes) : ∀ s : Bytes, starts_with needle s = true ↔ needle <+: s := by
  induction needle with
  | nil => intro s; simp [starts_with]
  | cons n ns ih =>
    intro s
    cases s with
    | nil => simp [starts_with]
    | cons c cs => simp [starts_with, ih cs, List.cons_prefix_cons]

theorem strstr_eq_some (needle : Bytes) :
    ∀ (hay p : Bytes), strstr needle hay = some p → p <:+ hay ∧ needle <+: p := by
  intro hay
  induction hay with
  | nil =>
    intro p h
    simp only [strstr] at h
    split_ifs at h with hn
    simp only [Option.some.injEq] at h
    subst h; subst hn
    exact ⟨List.suffix_refl _, List.prefix_refl _⟩
  | cons c rest ih =>
    intro p h
    simp only [strstr] at h
    split_ifs at h with hs
    · simp only [Option.some.injEq] at h
      subst h
      exact ⟨List.suffix_refl _, (starts_with_iff _ _).mp hs⟩
    · obtain ⟨h1, h2⟩ := ih p h
      exact ⟨h1.trans (List.suffix_cons c rest), h2⟩

theorem cstr_initial_segment : ∀ s : Bytes, cstr s <+: s := by
  intro s
  induction s with
  | nil => exact List.prefix_refl _
  | cons c t ih =>
    simp only [cstr]
    split_ifs
    · exact List.nil_prefix
    · exact (List.cons_prefix_cons).mpr ⟨rfl, ih⟩

theorem cstr_length_le (s : Bytes) : (cstr s).length ≤ s.length :=
  (cstr_initial_segment s).length_le

theorem decode_cmd_length (postbuf cmddec : Bytes) (h : decode_cmd postbuf = some cmddec) :
    cmddec.length + 4 ≤ postbuf.length := by
  simp only [decode_cmd] at h
  cases hs : strstr (ascii "cmd=") (cstr postbuf) with
  | none => simp [hs] at h
  | some p =>
    simp only [hs, Option.some.injEq] at h
    subst h
    obtain ⟨h1, h2⟩ := strstr_eq_some _ _ _ hs
    have hl1 := h1.length_le
    have hl2 := h2.length_le
    have hl3 := cstr_length_le postbuf
    have hl4 := url_decode_length_le (p.drop 4)
    have h4 : (ascii "cmd=").length = 4 := by decide
    simp only [List.length_drop] at hl4
    omega

/-- C9: `url_decode` never writes more bytes than its input has; and for a body of at
most 65536 bytes in which `cmd=` is found, the bytes written to `cmddec` number at most
65535 (indeed at most the body length minus 4), so they and the final zero fit in the
65536 bytes of the buffer. -/
theorem cmddec_bounded (postbuf cmddec : Bytes) (hlen : postbuf.length ≤ 65536)
    (h : decode_cmd postbuf = some cmddec) :
    (∀ s : Bytes, (url_decode s).length ≤ s.length) ∧
      cmddec.length + 4 ≤ postbuf.length ∧ cmddec.length ≤ 65535 ∧
      cmddec.length + 1 ≤ 65536 := by
  have := decode_cmd_length postbuf cmddec h
  exact ⟨url_decode_length_le, this, by omega, by omega⟩

/-- Witness of C9: the body `cmd=echo%20hi`. -/
theorem cmddec_bounded_witness :
    (ascii "cmd=echo%20hi").length ≤ 65536 ∧
    decode_cmd (ascii "cmd=echo%20hi") = some (ascii "echo hi") ∧
    ((∀ s : Bytes, (url_decode s).length ≤ s.length) ∧
      (ascii "echo hi").length + 4 ≤ (ascii "cmd=echo%20hi").length ∧
      (ascii "echo hi").length ≤ 65535 ∧ (ascii "echo hi").length + 1 ≤ 65536) :=
  ⟨by decide, by decide,
    cmddec_bounded (ascii "cmd=echo%20hi") (ascii "echo hi") (by decide) (by decide)⟩

/-! ## Reading the body -/

theorem read_n_loop_eq :
    ∀ (k : Nat) (buf conn : Bytes),
      read_n_loop k buf conn =
        if k ≤ conn.length then ⟨((buf.length + k : Nat) : Int), buf ++ conn.take k, conn.drop k⟩
        else ⟨0, buf ++ conn, []⟩ := by
  intro k
  induction k with
  | zero => intro buf conn; simp [read_n_loop]
  | succ k ih =>
    intro buf conn
    cases conn with
    | nil => simp [read_n_loop]
    | cons b rest =>
      simp only [read_n_loop, ih, List.length_cons, Nat.add_le_add_iff_right]
      split_ifs
      · simp; omega
      · simp

theorem read_n_eq (conn : Bytes) (n : Nat) :
    read_n conn n =
      if n ≤ conn.length then ⟨(n : Int), conn.take n, conn.drop n⟩ else ⟨0, conn, []⟩ := by
  simp [read_n, read_n_loop_eq]

theorem header_terminator_offset (conn b : Bytes)
    (hs : strstr CRLFCRLF (cstr (read_http_header conn BUF_SIZE).buf) = some b) :
    (cstr (read_http_header conn BUF_SIZE).buf).length - b.length + 4 =
      (read_http_header conn BUF_SIZE).buf.length := by
  obtain ⟨_, _, _, hno⟩ := read_http_header_inv conn BUF_SIZE (by decide)
  generalize (read_http_header conn BUF_SIZE).buf = buf at hs hno ⊢
  obtain ⟨⟨u, hu⟩, ⟨v, hv⟩⟩ := strstr_eq_some _ _ _ hs
  obtain ⟨w, hw⟩ := cstr_initial_segment buf
  have hbuf : buf = (u ++ CRLFCRLF) ++ (v ++ w) := by
    rw [← hw, ← hu, ← hv]; simp
  have hlen : (cstr buf).length = u.length + b.length := by rw [← hu]; simp
  have hb : b.length = 4 + v.length := by rw [← hv]; simp [CRLFCRLF]; omega
  have hbl : buf.length = u.length + 4 + (v.length + w.length) := by
    rw [hbuf]; simp [CRLFCRLF]; omega
  by_cases hlt : u.length + 4 < buf.length
  · have := hno (u.length + 4) hlt
    have htk : buf.take (u.length + 4) = u ++ CRLFCRLF := by
      rw [hbuf]
      have : (u ++ CRLFCRLF).length = u.length + 4 := by simp [CRLFCRLF]
      rw [← this, List.take_left']
      rfl
    rw [htk] at this
    have h2 : ends_header (u ++ CRLFCRLF) = true := (ends_header_iff _).mpr ⟨u, rfl⟩
    rw [h2] at this
    exact absurd this (by decide)
  · omega

theorem read_body_of_header (conn : Bytes) (cl : Int)
    (hret : 0 < (read_http_header conn BUF_SIZE).ret) (hcl : 1 ≤ cl) :
    read_body (read_http_header conn BUF_SIZE).buf (read_http_header conn BUF_SIZE).rest
        (read_http_header conn BUF_SIZE).ret cl =
      if cl.toNat ≤ (after_header conn).length then
        some ((after_header conn).take cl.toNat, (after_header conn).drop cl.toNat)
      else none := by
  obtain ⟨hcat, _, hret2, _⟩ := read_http_header_inv conn BUF_SIZE (by decide)
  have hretlen : (read_http_header conn BUF_SIZE).ret =
      ((read_http_header conn BUF_SIZE).buf.length : Int) := by
    rcases hret2 with h | h
    · rw [h] at hret; exact absurd hret (by decide)
    · exact h
  have hrest : (read_http_header conn BUF_SIZE).rest = after_header conn := by
    unfold after_header
    have h := congrArg (List.drop (read_http_header conn BUF_SIZE).buf.length) hcat
    rw [List.drop_left] at h
    exact h
  have hoff := header_terminator_offset conn
  rw [hrest]
  rw [hretlen]
  generalize (read_http_header conn BUF_SIZE).buf = buf at hoff ⊢
  generalize after_header conn = rest
  have hn : 1 ≤ cl.toNat := by omega
  have key : ∀ have_ : Int, have_ = 0 → ∀ copied0 : Bytes,
      (if have_ < cl then
        (if (read_n rest (cl - have_).toNat).ret ≤ 0 then none
         else some ((if have_ > 0 then copied0 else []) ++ (read_n rest (cl - have_).toNat).buf,
            (read_n rest (cl - have_).toNat).rest))
       else some ((if have_ > 0 then copied0 else []), rest)) =
      if cl.toNat ≤ rest.length then some (rest.take cl.toNat, rest.drop cl.toNat)
      else none := by
    intro have_ h0 copied0
    subst h0
    rw [if_pos (by omega)]
    simp only [sub_zero, gt_iff_lt, lt_self_iff_false, if_false, List.nil_append]
    rw [read_n_eq]
    by_cases hle : cl.toNat ≤ rest.length
    · simp only [if_pos hle]
      rw [if_neg (by omega)]
    · simp only [if_neg hle]
      simp
  unfold read_body
  cases hs : strstr CRLFCRLF (cstr buf) with
  | none => exact key 0 rfl _
  | some b =>
    have := hoff b hs
    refine key _ ?_ _
    simp only
    omega

/-! ## The connection handler -/

theorem strcmp_eq_iff (a b : Bytes) (hb : cstr b = b) : strcmp_eq a b = true ↔ cstr a = b := by
  simp [strcmp_eq, hb]

theorem handle_connection_local (menu : List MenuItem) (run : Bytes → Bytes)
    (addr : sockaddr_storage) (method0 path0 conn : Bytes)
    (hloc : is_local_addr (some addr) ≠ 0) :
    handle_connection menu run addr method0 path0 conn =
      if (read_http_header conn BUF_SIZE).ret ≤ 0 then
        some ⟨[], none, (read_http_header conn BUF_SIZE).rest⟩
      else route_request menu run method0 path0 (read_http_header conn BUF_SIZE) := by
  simp [handle_connection, hloc]

theorem read_http_header_rest (conn : Bytes) :
    (read_http_header conn BUF_SIZE).rest = after_header conn := by
  obtain ⟨hcat, _, _, _⟩ := read_http_header_inv conn BUF_SIZE (by decide)
  unfold after_header
  have h := congrArg (List.drop (read_http_header conn BUF_SIZE).buf.length) hcat
  rw [List.drop_left] at h
  exact h

theorem route_request_of_header (menu : List MenuItem) (run : Bytes → Bytes)
    (method0 path0 conn method path : Bytes)
    (hret : 0 < (read_http_header conn BUF_SIZE).ret)
    (hmp : request_line method0 path0 conn = some (method, path)) :
    route_request menu run method0 path0 (read_http_header conn BUF_SIZE) =
      some
      (if cstr method = ascii "GET" ∧ cstr path = ascii "/" then
        ⟨build_main_page menu, none, after_header conn⟩
      else if cstr method = ascii "POST" ∧ cstr path = ascii "/run" then
        (if request_content_length conn ≤ 0 ∨ request_content_length conn > 65536 then
          ⟨send_simple (ascii "411 Length Required")
              (ascii "Content-Length required or too large\n"), none, after_header conn⟩
         else if (request_content_length conn).toNat ≤ (after_header conn).length then
          (match command_of_body (request_body conn) with
           | none =>
             ⟨send_simple (ascii "400 Bad Request") (ascii "No cmd parameter\n"), none,
               (after_header conn).drop (request_content_length conn).toNat⟩
           | some cmddec =>
             ⟨output_page cmddec (cstr (run cmddec)), some cmddec,
               (after_header conn).drop (request_content_length conn).toNat⟩)
         else ⟨[], none, []⟩)
      else
        ⟨send_simple (ascii "404 Not Found") (ascii "Not found\n"), none,
          after_header conn⟩) := by
  have hGET : cstr (ascii "GET") = ascii "GET" := by decide
  have hPOST : cstr (ascii "POST") = ascii "POST" := by decide
  have hroot : cstr (ascii "/") = ascii "/" := by decide
  have hrun : cstr (ascii "/run") = ascii "/run" := by decide
  unfold request_line at hmp
  simp only [route_request, hmp, request_content_length, strcmp_eq_iff _ _ hGET,
    strcmp_eq_iff _ _ hPOST, strcmp_eq_iff _ _ hroot, strcmp_eq_iff _ _ hrun,
    read_http_header_rest]
  split_ifs with hG hP hcl hbody
  · rfl
  · rfl
  · have h1 : 1 ≤ parse_content_length (read_http_header conn BUF_SIZE).buf := by
      simp only [not_or, not_le, gt_iff_lt, not_lt] at hcl
      omega
    have hrb := read_body_of_header conn _ hret h1
    rw [read_http_header_rest] at hrb
    rw [hrb, if_pos hbody]
    simp only [request_body, request_content_length]
    cases command_of_body
      (List.take (parse_content_length (read_http_header conn BUF_SIZE).buf).toNat
        (after_header conn)) <;> rfl
  · have h1 : 1 ≤ parse_content_length (read_http_header conn BUF_SIZE).buf := by
      simp only [not_or, not_le, gt_iff_lt, not_lt] at hcl
      omega
    have hrb := read_body_of_header conn _ hret h1
    rw [read_http_header_rest] at hrb
    rw [hrb, if_neg hbody]
  · rfl

section

set_option maxRecDepth 100000

/-- The words `method` and `path` are not tied to the request line.  On the header
`POST` CR LF `/run` CR LF ... the second word is taken from the second line and the command
of the body is run.  On a header made of CR LF CR LF alone both buffers keep their earlier
contents, so with `GET` and `/` left in them the menu page is sent, and with empty buffers
the answer is 404.  A first word of 256 bytes does not fit `method`. -/
theorem request_words_examples :
    request_line [] [] request_on_two_lines = some (ascii "POST", ascii "/run") ∧
    handle_connection [] echo_runner addr_loopback [] [] request_on_two_lines
      = some ⟨output_page (ascii "ls") (cstr (echo_runner (ascii "ls"))), some (ascii "ls"), []⟩ ∧
    request_line (ascii "GET") (ascii "/") (ascii "\r\n\r\n") = some (ascii "GET", ascii "/") ∧
    handle_connection [] echo_runner addr_loopback (ascii "GET") (ascii "/") (ascii "\r\n\r\n")
      = some ⟨build_main_page [], none, []⟩ ∧
    handle_connection [] echo_runner addr_loopback [] [] (ascii "\r\n\r\n")
      = some ⟨send_simple (ascii "404 Not Found") (ascii "Not found\n"), none, []⟩ ∧
    request_line [] [] request_with_long_word = none ∧
    handle_connection [] echo_runner addr_loopback [] [] request_with_long_word = none := by
  refine ⟨by decide, by decide, by decide, ?_, by decide, by decide, by decide⟩
  have hrest : after_header (ascii "\r\n\r\n") = [] := by decide
  rw [handle_connection_local _ _ _ _ _ _ (by decide), if_neg (by decide),
    route_request_of_header [] echo_runner (ascii "GET") (ascii "/") (ascii "\r\n\r\n")
      (ascii "GET") (ascii "/") (by decide) (by decide),
    if_pos (by decide), hrest]

end

/-! ## Requests without a header terminator -/

theorem no_terminator_in_take (conn : Bytes) (n k : Nat) (hk : k ≤ n)
    (hno : ¬ CRLFCRLF <:+: conn.take n) : ¬ CRLFCRLF <:+ conn.take k := fun h =>
  hno (h.isInfix.trans (List.take_prefix_take_left conn hk).isInfix)

theorem read_http_header_full (conn : Bytes) (cap : Nat) (hcap : 1 ≤ cap)
    (hno : ¬ CRLFCRLF <:+: conn.take (cap - 1)) (hlen : cap - 1 ≤ conn.length) :
    read_http_header conn cap =
      ⟨((cap - 1 : Nat) : Int), conn.take (cap - 1), conn.drop (cap - 1)⟩ := by
  have := read_http_header_loop_full cap conn [] (by simpa using hcap) (by simpa using hlen)
    (fun k _ hk => by
      simp only [List.length_nil, Nat.sub_zero] at hk
      simpa using (ends_header_eq_false_iff _).mpr
        (no_terminator_in_take conn (cap - 1) k hk hno))
  simpa [read_http_header] using this

theorem read_http_header_eof (conn : Bytes) (cap : Nat)
    (hno : ¬ CRLFCRLF <:+: conn.take (cap - 1)) (hlen : conn.length < cap - 1) :
    read_http_header conn cap = ⟨0, conn, []⟩ := by
  have := read_http_header_loop_eof cap conn [] (by simp; omega)
    (fun k _ hk => by
      simpa using (ends_header_eq_false_iff _).mpr
        (no_terminator_in_take conn (cap - 1) k (by omega) hno))
  simpa [read_http_header] using this

/-- C7 (as amended): for a local peer whose stream has no CR LF CR LF in its first
`BUF_SIZE - 1 = 8191` bytes.  If the stream ends before 8191 bytes, nothing is parsed or
routed: nothing is sent, no command is run, the connection is only closed.  If the
stream has 8191 bytes or more, the request is not abandoned: its first 8191 bytes are
taken as the header and parsed and routed like any other. -/
theorem handle_connection_unterminated (menu : List MenuItem) (run : Bytes → Bytes)
    (addr : sockaddr_storage) (method0 path0 conn : Bytes)
    (hloc : is_local_addr (some addr) ≠ 0)
    (hno : ¬ CRLFCRLF <:+: conn.take (BUF_SIZE - 1)) :
    (conn.length < BUF_SIZE - 1 →
      handle_connection menu run addr method0 path0 conn = some ⟨[], none, []⟩) ∧
    (BUF_SIZE - 1 ≤ conn.length →
      handle_connection menu run addr method0 path0 conn =
        route_request menu run method0 path0
          ⟨((BUF_SIZE - 1 : Nat) : Int), conn.take (BUF_SIZE - 1), conn.drop (BUF_SIZE - 1)⟩) := by
  refine ⟨fun hlen => ?_, fun hlen => ?_⟩
  · rw [handle_connection_local _ _ _ _ _ _ hloc, read_http_header_eof conn BUF_SIZE hno hlen]
    simp
  · rw [handle_connection_local _ _ _ _ _ _ hloc,
      read_http_header_full conn BUF_SIZE (by decide) hno hlen]
    have h8 : ¬ (((BUF_SIZE - 1 : Nat) : Int) ≤ 0) := by decide
    exact if_neg h8

/-- Witness of C7 (as amended): the peer `::1` that sends `GET / HTTP/1.1` CR LF and then
closes gets no answer. -/
theorem handle_connection_unterminated_witness :
    is_local_addr (some addr_loopback) ≠ 0 ∧
    ¬ CRLFCRLF <:+: (ascii "GET / HTTP/1.1\r\n").take (BUF_SIZE - 1) ∧
    (ascii "GET / HTTP/1.1\r\n").length < BUF_SIZE - 1 ∧
    handle_connection [] echo_runner addr_loopback [] [] (ascii "GET / HTTP/1.1\r\n")
      = some ⟨[], none, []⟩ :=
  ⟨by decide, by decide, by decide,
    (handle_connection_unterminated [] echo_runner addr_loopback [] []
      (ascii "GET / HTTP/1.1\r\n") (by decide) (by decide)).1 (by decide)⟩

theorem route_request_get_root (menu : List MenuItem) (run : Bytes → Bytes)
    (method0 path0 x rest : Bytes) (n : Int) :
    route_request menu run method0 path0 ⟨n, ascii "GET / " ++ x, rest⟩ =
      some ⟨build_main_page menu, none, rest⟩ := by
  have hx : ascii "GET / " ++ x = 71 :: 69 :: 84 :: 32 :: 47 :: 32 :: x := rfl
  have hm : (sscanf_request_line (ascii "GET / " ++ x) method0 path0) =
      some ([71, 69, 84], [47]) := by
    rw [hx]
    simp [sscanf_request_line, cstr, skip_space, after_word, scan_word, isspace, SMALL]
  have h1 : strcmp_eq [71, 69, 84] (ascii "GET") = true := by decide
  have h2 : strcmp_eq [47] (ascii "/") = true := by decide
  simp only [route_request, hm, h1, h2, and_self, if_true]

theorem long_request_length : long_request.length = BUF_SIZE - 1 := by
  have h6 : (ascii "GET / ").length = 6 := by decide
  simp only [long_request, List.length_append, List.length_replicate, h6, BUF_SIZE]

theorem long_request_no_terminator : ¬ CRLFCRLF <:+: long_request := by
  intro h
  have h13 : (13 : Nat) ∈ long_request := h.subset (by simp [CRLFCRLF])
  simp only [long_request, List.mem_append, List.mem_replicate] at h13
  rcases h13 with h | ⟨_, h⟩
  · exact absurd h (by decide)
  · exact absurd h (by decide)

/-- C7, counterexample: the peer `::1` sends 8191 bytes, `GET / ` and 8185 letters `a`,
with no CR LF CR LF anywhere.  The request is parsed and routed all the same, and the
menu page is served. -/
theorem handle_connection_long_request :
    is_local_addr (some addr_loopback) ≠ 0 ∧
    long_request.length = BUF_SIZE - 1 ∧
    ¬ CRLFCRLF <:+: long_request ∧
    handle_connection [] echo_runner addr_loopback [] [] long_request =
      some ⟨build_main_page [], none, []⟩ := by
  refine ⟨by decide, long_request_length, long_request_no_terminator, ?_⟩
  have htake : long_request.take (BUF_SIZE - 1) = long_request :=
    List.take_of_length_le (le_of_eq long_request_length)
  have hdrop : long_request.drop (BUF_SIZE - 1) = [] :=
    List.drop_of_length_le (le_of_eq long_request_length)
  rw [handle_connection_local _ _ _ _ _ _ (by decide),
    read_http_header_full long_request BUF_SIZE (by decide)
      (by rw [htake]; exact long_request_no_terminator) (le_of_eq long_request_length.symm),
    if_neg (by decide), htake, hdrop]
  exact route_request_get_root [] echo_runner [] [] _ [] _

/-! ## Evaluations of the code at single requests -/

/-- C3, the code at the body `cmd=a%26b`: the value after `cmd=` is `a%26b`, which
decodes to `a&b`, but the command handed to the executor is `a`, because the cut at `&`
is made after decoding. -/
theorem command_of_body_encoded_ampersand :
    url_decode (ascii "a%26b") = ascii "a&b" ∧
    command_of_body (ascii "cmd=a%26b") = some (ascii "a") ∧
    (handle_connection [] echo_runner addr_loopback [] []
      (ascii "POST /run HTTP/1.1\r\nContent-Length: 9\r\n\r\ncmd=a%26b")).map Outcome.executed
        = some (some (ascii "a")) ∧
    command_of_body (ascii "cmd=a&x=1") = some (ascii "a") := by
  decide

/-- C6, the code at a lower-case header name: `content-length: 5` is found by the
case-insensitive search but not read by the case-sensitive `sscanf` format, so the
content length stays 0 and a `POST /run` carrying it is answered 411, whereas
`Content-Length: 5` gives 5. -/
theorem parse_content_length_lower_case :
    parse_content_length (ascii "POST /run HTTP/1.1\r\ncontent-length: 5\r\n\r\n") = 0 ∧
    parse_content_length (ascii "POST /run HTTP/1.1\r\nCONTENT-LENGTH: 5\r\n\r\n") = 0 ∧
    parse_content_length (ascii "POST /run HTTP/1.1\r\nContent-Length: 5\r\n\r\n") = 5 ∧
    (handle_connection [] echo_runner addr_loopback [] []
      (ascii "POST /run HTTP/1.1\r\ncontent-length: 5\r\n\r\ncmd=a")).map Outcome.sent
        = some (send_simple (ascii "411 Length Required")
            (ascii "Content-Length required or too large\n")) := by
  decide

section

set_option maxRecDepth 100000

/-- C10, the code at a command of 1024 letters `a` with the output `hi`: the formatted
page would have 1365 bytes, the buffer takes 1026 of them, so what is sent stops after
748 bytes of the command; the rest of the command, the output and the closing markup
are not sent.  The last part is the same for the whole handler, on the request that
carries this command. -/
theorem output_page_long_command :
    (output_page_text (List.replicate 1024 97) (ascii "hi\n")).length = 1365 ∧
    output_page (List.replicate 1024 97) (ascii "hi\n")
      = output_head ++ List.replicate 748 97 ∧
    output_page (List.replicate 1024 97) (ascii "hi\n")
      ≠ output_page_text (List.replicate 1024 97) (ascii "hi\n") ∧
    ¬ output_tail <:+ output_page (List.replicate 1024 97) (ascii "hi\n") ∧
    (handle_connection [] (fun _ => ascii "hi\n") addr_loopback [] []
      (ascii "POST /run HTTP/1.1\r\nContent-Length: 1028\r\n\r\ncmd=" ++
        List.replicate 1024 97)).map Outcome.sent
      = some (output_head ++ List.replicate 748 97) := by
  decide

end

end Shell
